import Mathlib

/-!
Verification of the schema-aggregation core of `flask_dantic_schema/extension.py`.

The Python source builds an OpenAPI 3.0.3 document from a Flask route table.
We shallowly embed the relevant data (JSON-like values, Python dictionaries as
insertion-ordered association lists with unique keys, routes, view-function
annotations) and the functions `_split_definitions`, `convert_model_result`
(its value coercion), and `_build_openapi_schema`, and prove properties of the
embedding.

Python `dict` values are modelled as association lists `List (κ × α)` with the
usual dict operations: lookup scans from the front, assignment replaces the
binding in place when the key is present and appends otherwise, `update` folds
assignments of the other dict's items in order, `pop` removes the key.  On
lists with pairwise-distinct keys (every reachable Python dict) these agree
with CPython's semantics, including insertion-order preservation.
-/

namespace FlaskDantic

set_option maxRecDepth 10000

/-- JSON-like values as produced by `pydantic.schema.model_schema` and stored in
the OpenAPI document.  Objects are insertion-ordered association lists, matching
Python dictionaries. -/

inductive Json where
  | null : Json
  | bool : Bool → Json
  | num : Int → Json
  | str : String → Json
  | arr : List Json → Json
  | obj : List (String × Json) → Json

/-- A Python dictionary with string keys and JSON values. -/

abbrev JDict := List (String × Json)

/-- Dictionary lookup `d[k]` / `d.get(k)`: first (unique) binding of the key. -/

def aget {κ α : Type} [DecidableEq κ] : List (κ × α) → κ → Option α
  | [], _ => none
  | (k, v) :: rest, key => if k = key then some v else aget rest key

/-- Dictionary assignment `d[k] = v`: replace the binding in place when the key
is present, append otherwise (CPython insertion-order semantics). -/

def ainsert {κ α : Type} [DecidableEq κ] : List (κ × α) → κ → α → List (κ × α)
  | [], key, val => [(key, val)]
  | (k, v) :: rest, key, val =>
      if k = key then (key, val) :: rest else (k, v) :: ainsert rest key val

/-- Dictionary key removal, as performed by `d.pop(k, default)`: drop every
binding of the key (a real dict has at most one). -/

def aremove {κ α : Type} [DecidableEq κ] : List (κ × α) → κ → List (κ × α)
  | [], _ => []
  | (k, v) :: rest, key =>
      if k = key then aremove rest key else (k, v) :: aremove rest key

/-- `c.update(d)`: assign every item of `d` into `c`, in `d`'s order, so later
items of `d` overwrite earlier bindings of the same key. -/

def aupdate {κ α : Type} [DecidableEq κ] (c d : List (κ × α)) : List (κ × α) :=
  d.foldl (fun acc p => ainsert acc p.1 p.2) c

/-- `d.setdefault(k, v)`: leave `d` unchanged when the key is present, append
the new binding otherwise. -/

def asetdefault {κ α : Type} [DecidableEq κ] (d : List (κ × α)) (key : κ) (val : α) :
    List (κ × α) :=
  match aget d key with
  | some _ => d
  | none => d ++ [(key, val)]

/-- Rightmost binding of a key: the value that survives when the list is folded
into a dict by repeated assignment (`update` semantics for duplicate keys). -/

def agetLast {κ α : Type} [DecidableEq κ] : List (κ × α) → κ → Option α
  | [], _ => none
  | (k, v) :: rest, key =>
      match agetLast rest key with
      | some r => some r
      | none => if k = key then some v else none

/-- `d.pop(k, default)`: return the value bound to the key (or the default) and
the dictionary without that key. -/

def dictPop (d : JDict) (key : String) (dflt : Json) : Json × JDict :=
  ((aget d key).getD dflt, aremove d key)

/-- `_split_definitions(schema)` (extension.py lines 211-214): copy the schema
dict, pop its `definitions` key with `{}` as default, and return the popped
definitions together with the remaining schema. -/

def split_definitions (schema : JDict) : Json × JDict :=
  let new_schema := schema
  dictPop new_schema "definitions" (Json.obj [])

/-- A heap of Python dict objects, for stating object-mutation (frame)
properties: addresses are list indices, `copy` allocates a fresh cell. -/

abbrev Heap := List JDict

/-- Read the dict object stored at an address (missing addresses read as `{}`;
they never arise for addresses handed out by allocation). -/

def hread (h : Heap) (a : Nat) : JDict := (h[a]?).getD []

/-- `_split_definitions` at the heap level: `schema.copy()` allocates a fresh
cell holding the same entries, `pop` then mutates only that fresh cell.
Returns ((definitions, address of the copy), final heap). -/

def split_definitions_heap (h : Heap) (a : Nat) : (Json × Nat) × Heap :=
  let copied := hread h a
  let b := h.length
  let h1 := h ++ [copied]
  let popped := dictPop copied "definitions" (Json.obj [])
  ((popped.1, b), h1.set b popped.2)

/-!
Handler return values (`convert_model_result`, extension.py lines 217-236).

`PyVal` models the Python values a Flask handler can return: scalars, lists,
tuples, dicts, dataclass instances (with their declared fields in order) and
pydantic `BaseModel` instances (with their declared fields in order).
-/

/-- Python runtime values relevant to the response coercion. -/

inductive PyVal where
  | none : PyVal
  | bool : Bool → PyVal
  | int : Int → PyVal
  | str : String → PyVal
  | list : List PyVal → PyVal
  | tuple : List PyVal → PyVal
  | dict : List (PyVal × PyVal) → PyVal
  | dataclass : List (String × PyVal) → PyVal
  | model : List (String × PyVal) → PyVal

mutual

/-- `dataclasses.asdict` (the stdlib `_asdict_inner` with the `dict` factory):
recursively converts dataclass instances to dicts keyed by field-name strings,
recursing into lists, tuples, and dicts (both keys and values); every other
value (including pydantic models) is passed through (deep-copied, which is
structurally the identity here). -/
def asdictInner : PyVal → PyVal
  | PyVal.dataclass fs => PyVal.dict (asdictFields fs)
  | PyVal.list xs => PyVal.list (asdictList xs)
  | PyVal.tuple xs => PyVal.tuple (asdictList xs)
  | PyVal.dict es => PyVal.dict (asdictEntries es)
  | v => v

/-- Field conversion for `asdict`: field names become string keys, field values
are converted recursively. -/
def asdictFields : List (String × PyVal) → List (PyVal × PyVal)
  | [] => []
  | (k, v) :: rest => (PyVal.str k, asdictInner v) :: asdictFields rest

/-- Element-wise `asdict` conversion of a list or tuple. -/
def asdictList : List PyVal → List PyVal
  | [] => []
  | x :: xs => asdictInner x :: asdictList xs

/-- Entry-wise `asdict` conversion of a dict: keys and values both recursed. -/
def asdictEntries : List (PyVal × PyVal) → List (PyVal × PyVal)
  | [] => []
  | (k, v) :: rest => (asdictInner k, asdictInner v) :: asdictEntries rest

end

mutual

/-- Models the external pydantic `BaseModel.dict()`: the model's canonical
dictionary, keyed by field-name strings, with nested models, lists, tuples and
dict values converted recursively. -/
def modelDict : PyVal → PyVal
  | PyVal.model fs => PyVal.dict (modelDictFields fs)
  | v => v

/-- Field conversion for `BaseModel.dict()`. -/
def modelDictFields : List (String × PyVal) → List (PyVal × PyVal)
  | [] => []
  | (k, v) :: rest => (PyVal.str k, modelDictVal v) :: modelDictFields rest

/-- Value conversion inside `BaseModel.dict()`. -/
def modelDictVal : PyVal → PyVal
  | PyVal.model fs => PyVal.dict (modelDictFields fs)
  | PyVal.list xs => PyVal.list (modelDictList xs)
  | PyVal.tuple xs => PyVal.tuple (modelDictList xs)
  | PyVal.dict es => PyVal.dict (modelDictEntries es)
  | v => v

/-- Element-wise `BaseModel.dict()` value conversion. -/
def modelDictList : List PyVal → List PyVal
  | [] => []
  | x :: xs => modelDictVal x :: modelDictList xs

/-- Entry-wise `BaseModel.dict()` value conversion of a dict (values only). -/
def modelDictEntries : List (PyVal × PyVal) → List (PyVal × PyVal)
  | [] => []
  | (k, v) :: rest => (k, modelDictVal v) :: modelDictEntries rest

end

/-- `is_dataclass(value)` for instances. -/

def isDataclass : PyVal → Bool
  | PyVal.dataclass _ => true
  | _ => false

/-- `isinstance(value, BaseModel)`. -/

def isBaseModel : PyVal → Bool
  | PyVal.model _ => true
  | _ => false

/-- The value coercion inside `convert_model_result` (extension.py lines
228-233): dataclass instances via `asdict`, `BaseModel` instances via
`.dict()`, everything else unchanged. -/

def convert_model_result_value (value : PyVal) : PyVal :=
  if isDataclass value then asdictInner value
  else if isBaseModel value then modelDict value
  else value

/-!
Path-template rewriting (extension.py lines 27 and 318):
`PATH_RE = re.compile("<(?:[^:]*:)?([^>]+)>")` and
`path = re.sub(PATH_RE, r"{\1}", rule.rule)`.

`patMatchAt` decides whether `PATH_RE` matches at the start of a character
list, following Python's backtracking semantics exactly: after `<`, the greedy
optional group `(?:[^:]*:)?` is tried first; `[^:]*` can only end at the first
colon (shorter attempts are not followed by `:`), so the group either consumes
up to and including the first colon of the remainder, or matches empty.  Then
`([^>]+)` greedily captures a nonempty run of non-`>` characters, which must be
followed by `>`.  Note that `[^:]*` happily consumes `>` characters, so a
pattern like `/a/<x>/b/<int:y>` is matched in ONE span from the first `<` to
the final `>` with capture `y` - exactly as CPython's `re` does.
-/

/-- Match the trailing part `([^>]+)>` of `PATH_RE`, returning the capture and
the characters after the match.  The greedy `[^>]+` must consume the maximal
run of non-`>` characters (shorter attempts are not followed by `>`), which
must be nonempty and followed by `>`. -/

def chompName (cs : List Char) : Option (List Char × List Char) :=
  match cs.drop (cs.takeWhile (fun c => c ≠ '>')).length with
  | '>' :: rest =>
      if (cs.takeWhile (fun c => c ≠ '>')).isEmpty then none
      else some (cs.takeWhile (fun c => c ≠ '>'), rest)
  | _ => none

/-- The greedy optional group `(?:[^:]*:)?` taken in its non-empty alternative:
`[^:]*` can only end at the first colon, so the group consumes up to and
including the first colon, after which `([^>]+)>` must match. -/

def patMatchColon (cs : List Char) : Option (List Char × List Char) :=
  match cs.drop (cs.takeWhile (fun c => c ≠ ':')).length with
  | ':' :: rest2 => chompName rest2
  | _ => none

/-- Match `PATH_RE` at the start of the character list, returning the capture
group and the characters after the whole match: `<`, then the optional colon
group (greedy, so tried first), then the captured name and `>`. -/

def patMatchAt : List Char → Option (List Char × List Char)
  | '<' :: rest =>
      (match patMatchColon rest with
       | some r => some r
       | none => chompName rest)
  | _ => none

/-- Fuel-indexed scan of `re.sub(PATH_RE, r"..", s)`: at each position, when
`PATH_RE` matches, emit the capture wrapped in braces and continue after the
match; otherwise copy one character.  Every match consumes at least one
character, so fuel equal to the input length always suffices. -/

def pathSubAux : Nat → List Char → List Char
  | 0, cs => cs
  | _ + 1, [] => []
  | n + 1, c :: cs =>
      match patMatchAt (c :: cs) with
      | some (name, rest) => '{' :: (name ++ '}' :: pathSubAux n rest)
      | none => c :: pathSubAux n cs

/-- `re.sub(PATH_RE, r"..", ·)` on a character list. -/

def pathSub (cs : List Char) : List Char :=
  pathSubAux cs.length cs

/-- Line 318: `path = re.sub(PATH_RE, r"..", rule.rule)` rewriting the Flask
URL pattern into an OpenAPI path template (each replacement is the capture
wrapped in braces). -/

def rewritePath (s : String) : String :=
  String.mk (pathSub s.data)

/-!
The document builder `_build_openapi_schema` (extension.py lines 239-337).
-/

/-- `REF_PREFIX = "#/components/schemas/"` (extension.py line 25). -/

def REF_PREFIX_STR : String := "#/components/schemas/"

/-- A validation-model class, treated as an opaque external capability
(pydantic): `schema` is the JSON-Schema fragment that
`model_schema(cls, ref_prefix=REF_PREFIX)` returns for it, `doc` its
`__doc__`. -/

structure ModelType where
  schema : JDict
  doc : Option String

/-- `model_schema(model_class, ref_prefix=REF_PREFIX)`: the external pydantic
generator, modelled as returning the model's stored fragment (the builder only
ever calls it with the fixed `REF_PREFIX`). -/

def model_schema (m : ModelType) : JDict :=
  m.schema

/-- Modelled from the spec: the `DataSource` enum `{JSON, FORM}` imported from
the repository's `validation` module, which is not part of the provided source;
it selects the request-body media type. -/

inductive DataSource where
  | json : DataSource
  | form : DataSource

/-- A Flask view function together with the four fixed out-of-band annotation
attributes read by the builder.  `hidden` is `none` when the attribute was
never set (`getattr(func, ..., False)` then yields `False`); `doc` is
`func.__doc__`; the other three model the response/request/querystring
annotation attributes (with their documented absence defaults). -/

structure ViewFunc where
  hidden : Option Bool
  doc : Option String
  response_models : List (Nat × ModelType)
  request_data : Option (ModelType × DataSource)
  querystring_model : Option ModelType

/-- `getattr(func, FLASK_SCHEMA_HIDDEN_ATTRIBUTE, False)` (line 244). -/

def getattrHidden (f : ViewFunc) : Bool :=
  f.hidden.getD false

/-- A werkzeug URL rule as read by the builder: the pattern string, the
endpoint name, the registered methods, the automatic-OPTIONS flag, and the
names of `rule._converters` (one per placeholder, in pattern order; werkzeug
owns this data). -/

structure Rule where
  rule : String
  endpoint : String
  methods : List String
  provide_automatic_options : Bool
  converters : List String

/-- The extension configuration fields read by the builder. -/

structure FlaskSchema where
  title : String
  version : String
  tags : List Json
  servers : List Json
  convert_casing : Bool

/-- The application data the builder iterates: the url map's rules and the
`view_functions` table from endpoint name to view function. -/

structure App where
  rules : List Rule
  view_functions : String → ViewFunc

/-- A Path Item dict under construction: the builder's `path_object` with its
two always-present keys and three optional ones. -/

structure PathObject where
  parameters : List Json
  responses : List (Nat × Json)
  description : Option String
  summary : Option String
  requestBody : Option Json

/-- `path_object = {"parameters": [], "responses": {}}` (lines 247-250). -/

def initPathObject : PathObject :=
  ⟨[], [], none, none, none⟩

/-- Models the external `humps` key conversion used when `convert_casing` is
set: snake_case to camelCase on each underscore-separated part after the
first. -/

def camelizeKey (s : String) : String :=
  match s.splitOn "_" with
  | [] => s
  | h :: t => h ++ String.join (t.map String.capitalize)

mutual

/-- Models the external `humps.camelize` on a JSON value: mapping keys are
converted recursively, sequences element-wise, scalars unchanged. -/
def camelizeJson : Json → Json
  | Json.obj fs => Json.obj (camelizeFields fs)
  | Json.arr xs => Json.arr (camelizeArr xs)
  | v => v

/-- `humps.camelize` on the entries of a mapping. -/
def camelizeFields : List (String × Json) → List (String × Json)
  | [] => []
  | (k, v) :: rest => (camelizeKey k, camelizeJson v) :: camelizeFields rest

/-- `humps.camelize` element-wise on a sequence. -/
def camelizeArr : List Json → List Json
  | [] => []
  | x :: xs => camelizeJson x :: camelizeArr xs

end

/-- View a popped `definitions` value as the mapping that `dict.update`
iterates; `model_schema` always produces an object there (a non-mapping would
make `dict.update` raise, which no reachable fragment does). -/

def Json.asObj : Json → List (String × Json)
  | Json.obj fields => fields
  | _ => []

/-- `__doc__` values placed directly into the document (`None` becomes JSON
null). -/

def optionStr : Option String → Json
  | Option.none => Json.null
  | Option.some s => Json.str s

/-- Split a character list at every newline character (the split pieces do not
contain the terminators; splitting the empty list yields one empty piece). -/

def splitOnNl : List Char → List (List Char)
  | [] => [[]]
  | '\n' :: rest => [] :: splitOnNl rest
  | c :: rest =>
      match splitOnNl rest with
      | [] => [[c]]
      | l :: ls => (c :: l) :: ls

/-- Python `str.splitlines` restricted to `\n` terminators: no line for the
empty string, and a trailing terminator does not open a final empty line. -/

def splitlines (s : String) : List String :=
  match s.data with
  | [] => []
  | cs =>
      if cs.getLast? = some '\n' then ((splitOnNl cs).map String.mk).dropLast
      else (splitOnNl cs).map String.mk

/-- Python `str.lower` on the ASCII HTTP method names. -/

def lowerStr (s : String) : String :=
  String.mk (s.data.map Char.toLower)

/-- The per-model fragment step shared by the response, request and
querystring branches (lines 258-262, 274-278, 296-300): generate the schema,
camelize it when `convert_casing` is set, split off its definitions, and merge
those into the components table.  Returns the stripped fragment and the
updated components mapping. -/

def fragmentFor (ext : FlaskSchema) (m : ModelType) (schemas : JDict) :
    JDict × JDict :=
  let schema0 := model_schema m
  let schema1 := if ext.convert_casing then camelizeFields schema0 else schema0
  let popped := split_definitions schema1
  (popped.2, aupdate schemas popped.1.asObj)

/-- Lines 251-254: when the view function has a docstring, its first line
becomes `summary` and the remaining lines joined by newline become
`description`; an empty docstring makes the starred unpacking raise
`ValueError` (zero lines cannot fill `summary`). -/

def applyDoc (func : ViewFunc) (pobj : PathObject) : Except String PathObject :=
  match func.doc with
  | Option.none => Except.ok pobj
  | Option.some d =>
      match splitlines d with
      | [] => Except.error "ValueError: not enough values to unpack (expected at least 1, got 0)"
      | summary :: description =>
          Except.ok { pobj with
            description := some (String.intercalate "\n" description),
            summary := some summary }

/-- One iteration of the response-models loop (lines 257-270): generate and
split the fragment, merge its definitions, and set the response entry for the
status code. -/

def responseStep (ext : FlaskSchema) (acc : PathObject × JDict)
    (p : Nat × ModelType) : PathObject × JDict :=
  let fr := fragmentFor ext p.2 acc.2
  ({ acc.1 with
      responses := ainsert acc.1.responses p.1 (Json.obj
        [("content", Json.obj
          [("application/json", Json.obj [("schema", Json.obj fr.1)])]),
         ("description", optionStr p.2.doc)]) },
   fr.2)

/-- Lines 256-270: one response entry per `(status_code, model_class)` item of
the response-models annotation, in insertion order, merging each fragment's
definitions into the components table. -/

def applyResponses (ext : FlaskSchema) (func : ViewFunc) (pobj : PathObject)
    (schemas : JDict) : PathObject × JDict :=
  func.response_models.foldl (responseStep ext) (pobj, schemas)

/-- Lines 272-291: the request-body branch: generate, split and merge the
request model's fragment (line 278 merges its definitions into the components
table, which `fragmentFor` returns as the second component); the media type is
`application/json` for the JSON data source and
`application/x-www-form-urlencoded` otherwise. -/

def applyRequest (ext : FlaskSchema) (func : ViewFunc) (pobj : PathObject)
    (schemas : JDict) : PathObject × JDict :=
  match func.request_data with
  | Option.none => (pobj, schemas)
  | Option.some rd =>
      let fr := fragmentFor ext rd.1 schemas
      let encoding :=
        match rd.2 with
        | DataSource.json => "application/json"
        | DataSource.form => "application/x-www-form-urlencoded"
      ({ pobj with
          requestBody := some (Json.obj
            [("content", Json.obj
              [(encoding, Json.obj [("schema", Json.obj fr.1)])])]) },
       fr.2)

/-- Lines 293-308: the querystring branch; one `in: "query"` parameter per
property of the stripped fragment, in property order.  A fragment without a
`properties` object makes the subscription raise. -/

def applyQuery (ext : FlaskSchema) (func : ViewFunc) (pobj : PathObject)
    (schemas : JDict) : Except String (PathObject × JDict) :=
  match func.querystring_model with
  | Option.none => Except.ok (pobj, schemas)
  | Option.some qm =>
      let fr := fragmentFor ext qm schemas
      match aget fr.1 "properties" with
      | Option.none => Except.error "KeyError: properties"
      | Option.some (Json.obj props) =>
          Except.ok
            ({ pobj with
                parameters := pobj.parameters ++ props.map (fun p =>
                  Json.obj [("name", Json.str p.1), ("in", Json.str "query"),
                            ("schema", p.2)]) },
             fr.2)
      | Option.some _ => Except.error "AttributeError: items"

/-- Lines 310-316: one `in: "path"` parameter (no schema key) per entry of
`rule._converters`, appended after the query parameters. -/

def appendPathParams (r : Rule) (pobj : PathObject) : PathObject :=
  { pobj with
      parameters := pobj.parameters ++ r.converters.map (fun n =>
        Json.obj [("name", Json.str n), ("in", Json.str "path")]) }

/-- The verb loop of lines 321-325 over an explicit method list: write the
Path Item reference under every registered verb, lowercased, skipping `HEAD`
always and `OPTIONS` when `auto` (the rule's automatic-OPTIONS flag) is set.
`idx` is the store address of this route's `path_object`. -/

def emitVerbsAux (auto : Bool) (ms : List String) (idx : Nat)
    (inner : List (String × Nat)) : List (String × Nat) :=
  ms.foldl
    (fun acc m =>
      if m = "HEAD" ∨ (m = "OPTIONS" ∧ auto = true) then acc
      else ainsert acc (lowerStr m) idx)
    inner

/-- Lines 321-325 for a rule: the verb loop over `rule.methods` with the
rule's `provide_automatic_options` flag. -/

def emitVerbs (r : Rule) (idx : Nat) (inner : List (String × Nat)) :
    List (String × Nat) :=
  emitVerbsAux r.provide_automatic_options r.methods idx inner

/-- The builder's intermediate state: the `paths` mapping (path key to verb
dict of Path Item references), the `components["schemas"]` mapping, and the
store of allocated `path_object`s (one per processed route; verb entries hold
store addresses, making the Python aliasing of one dict across verbs
explicit). -/

structure BuildState where
  paths : List (String × List (String × Nat))
  schemas : JDict
  store : List PathObject

/-- `paths = {}` and `components = {"schemas": {}}` (lines 240-241), with an
empty object store. -/

def initState : BuildState :=
  ⟨[], [], []⟩

/-- The loop body of `_build_openapi_schema` for one rule (lines 242-325):
skip hidden view functions; otherwise build the single `path_object`,
accumulate component schemas, rewrite the path, and attach the one stored
object to every emitted verb. -/

def processRule (ext : FlaskSchema) (vf : String → ViewFunc) (st : BuildState)
    (r : Rule) : Except String BuildState :=
  let func := vf r.endpoint
  if getattrHidden func then Except.ok st else
  match applyDoc func initPathObject with
  | Except.error e => Except.error e
  | Except.ok pobj1 =>
      let rs := applyResponses ext func pobj1 st.schemas
      let rq := applyRequest ext func rs.1 rs.2
      match applyQuery ext func rq.1 rq.2 with
      | Except.error e => Except.error e
      | Except.ok qd =>
          let pobj := appendPathParams r qd.1
          let path := rewritePath r.rule
          let paths1 := asetdefault st.paths path []
          let inner := (aget paths1 path).getD []
          Except.ok
            ⟨ainsert paths1 path (emitVerbs r st.store.length inner),
             qd.2,
             st.store ++ [pobj]⟩

/-- The builder's `for rule in app.url_map.iter_rules()` loop. -/

def processRules (ext : FlaskSchema) (vf : String → ViewFunc) :
    List Rule → BuildState → Except String BuildState
  | [], st => Except.ok st
  | r :: rest, st =>
      match processRule ext vf st r with
      | Except.error e => Except.error e
      | Except.ok st2 => processRules ext vf rest st2

/-- The returned OpenAPI document (lines 327-337); `componentSchemas` is the
`components["schemas"]` mapping of the `components` object. -/

structure Document where
  openapi : String
  title : String
  version : String
  componentSchemas : JDict
  paths : List (String × List (String × PathObject))
  tags : List Json
  servers : List Json

/-- Replace the Path Item references of the `paths` mapping by the stored
objects they point at (addresses handed out by the builder are always in
range; a dangling one would read as the empty Path Item). -/

def derefPaths (store : List PathObject)
    (paths : List (String × List (String × Nat))) :
    List (String × List (String × PathObject)) :=
  paths.map (fun p => (p.1, p.2.map (fun q => (q.1, (store[q.2]?).getD initPathObject))))

/-- `_build_openapi_schema(app, extension)` (lines 239-337): one pass over the
route table accumulating into fresh private `paths`/`components` mappings,
then the document literal of lines 327-337. -/

def _build_openapi_schema (app : App) (ext : FlaskSchema) :
    Except String Document :=
  match processRules ext app.view_functions app.rules initState with
  | Except.error e => Except.error e
  | Except.ok st =>
      Except.ok
        { openapi := "3.0.3",
          title := ext.title,
          version := ext.version,
          componentSchemas := st.schemas,
          paths := derefPaths st.store st.paths,
          tags := ext.tags,
          servers := ext.servers }

/-- The server state visible to the `openapi` endpoint: the app's route table
and the extension configuration.  Serving the document reads this state and
writes nothing (the builder owns private fresh accumulators). -/

structure ServerState where
  app : App
  ext : FlaskSchema

/-- One request to the `openapi` endpoint (lines 187-189): build the document
from the current state; the state is returned unchanged. -/

def handleOpenapiRequest (st : ServerState) :
    Except String Document × ServerState :=
  (_build_openapi_schema st.app st.ext, st)

/-- Look up the Path Item of a verb of a path in an assembled `paths`
mapping. -/

def docVerb (paths : List (String × List (String × PathObject)))
    (path verb : String) : Option PathObject :=
  match aget paths path with
  | Option.none => Option.none
  | Option.some vm => aget vm verb

/-!
Concrete fixtures used by the claim theorems: a shared `Error` sub-schema
referenced by two response models of one route, and small helper accessors
into the assembled document.
-/

/-- Field lookup inside a JSON object value. -/

def jget (j : Json) (k : String) : Option Json :=
  match j with
  | Json.obj fs => aget fs k
  | _ => none

/-- The `schema` fragment stored under
`responses[status].content["application/json"]` of a Path Item. -/

def responseSchema (po : PathObject) (status : Nat) : Option Json :=
  (aget po.responses status).bind (fun resp =>
    (jget resp "content").bind (fun c =>
      (jget c "application/json").bind (fun m => jget m "schema")))

/-- The response schema of a verb of a path of an assembled document. -/

def docRespSchema (d : Document) (path verb : String) (status : Nat) :
    Option Json :=
  (docVerb d.paths path verb).bind (fun po => responseSchema po status)

/-- The document placeholder used when extracting from a failed build (never
hit by the fixtures below). -/

def emptyDocument : Document :=
  ⟨"", "", "", [], [], [], []⟩

/-- Extract the document of a successful build. -/

def getOkD (e : Except String Document) : Document :=
  match e with
  | Except.ok d => d
  | Except.error _ => emptyDocument

/-- The shared named sub-schema `Error`. -/

def errorComponent : Json :=
  Json.obj [("title", Json.str "Error"), ("type", Json.str "object"),
    ("properties", Json.obj [("message", Json.obj [("type", Json.str "string")])])]

/-- A response model whose fragment references `Error` through the fixed
prefix and carries it as a named definition. -/

def modelA : ModelType :=
  ⟨[("title", Json.str "ModelA"), ("type", Json.str "object"),
    ("properties", Json.obj
      [("error", Json.obj [("$ref", Json.str (REF_PREFIX_STR ++ "Error"))])]),
    ("definitions", Json.obj [("Error", errorComponent)])], none⟩

/-- A second response model referencing the same `Error` definition. -/

def modelB : ModelType :=
  ⟨[("title", Json.str "ModelB"), ("type", Json.str "object"),
    ("properties", Json.obj
      [("err", Json.obj [("$ref", Json.str (REF_PREFIX_STR ++ "Error"))])]),
    ("definitions", Json.obj [("Error", errorComponent)])], none⟩

/-- A view function answering 200 with `modelA` and 404 with `modelB`. -/

def funcShared : ViewFunc :=
  ⟨none, none, [(200, modelA), (404, modelB)], none, none⟩

/-- A plain GET route at `/shared` served by `funcShared`. -/

def ruleShared : Rule :=
  ⟨"/shared", "shared", ["GET"], false, []⟩

/-- The one-route app for the shared-component fixture. -/

def appShared : App :=
  ⟨[ruleShared], fun _ => funcShared⟩

/-- An extension configuration with casing conversion off. -/

def extPlain : FlaskSchema :=
  ⟨"demo", "0.1.0", [], [], false⟩

/-- The document assembled for `appShared`. -/

def docShared : Document :=
  getOkD (_build_openapi_schema appShared extPlain)

/-- A named sub-schema carried by a request model's definitions table. -/

def reqComponent : Json :=
  Json.obj [("title", Json.str "ReqDef"), ("type", Json.str "object")]

/-- A request-body model whose fragment references `ReqDef` through the fixed
prefix and carries it as a named definition (exercising the merge of line
278). -/

def modelReq : ModelType :=
  ⟨[("title", Json.str "ModelReq"), ("type", Json.str "object"),
    ("properties", Json.obj
      [("payload", Json.obj [("$ref", Json.str (REF_PREFIX_STR ++ "ReqDef"))])]),
    ("definitions", Json.obj [("ReqDef", reqComponent)])], none⟩

/-- A view function with both a response model (`modelA`, definitions
`{Error}`) and a JSON request model (`modelReq`, definitions `{ReqDef}`). -/

def funcReq : ViewFunc :=
  ⟨none, none, [(200, modelA)], some (modelReq, DataSource.json), none⟩

/-- A POST route served by the request-model view function. -/

def ruleReq : Rule :=
  ⟨"/withbody", "withbody", ["POST"], false, []⟩

/-- The one-route app for the request-model fixture. -/

def appReq : App :=
  ⟨[ruleReq], fun _ => funcReq⟩

/-- The document assembled for `appReq`. -/

def docReq : Document :=
  getOkD (_build_openapi_schema appReq extPlain)

/-- A view function with no annotations at all (hidden marker never applied,
no docstring, no models). -/

def funcPlain : ViewFunc :=
  ⟨none, none, [], none, none⟩

/-- The claim's example route: methods `{GET, HEAD, OPTIONS}` with OPTIONS
auto-added. -/

def ruleGHO : Rule :=
  ⟨"/c2", "c2", ["GET", "HEAD", "OPTIONS"], true, []⟩

/-- One-route app for the verb-filter example. -/

def appGHO : App :=
  ⟨[ruleGHO], fun _ => funcPlain⟩

/-- The document assembled for `appGHO`. -/

def docGHO : Document :=
  getOkD (_build_openapi_schema appGHO extPlain)

/-- The GET+POST route of the sharing example. -/

def ruleGP : Rule :=
  ⟨"/c3", "c3", ["GET", "POST"], false, []⟩

/-- The builder state after processing the GET+POST route. -/

def stGP : BuildState :=
  match processRules extPlain (fun _ => funcPlain) [ruleGP] initState with
  | Except.ok st => st
  | Except.error _ => initState

/-- A view function carrying the hidden marker (`hide_route` sets the
attribute to `True`) together with response metadata that must be ignored. -/

def funcHidden : ViewFunc :=
  ⟨some true, some "Hidden doc", [(200, modelA)], none, none⟩

/-- A route served by the hidden view function. -/

def ruleHidden : Rule :=
  ⟨"/hidden/<int:x>", "hidden", ["GET", "POST"], false, ["x"]⟩

/-- One-route app whose only route is hidden. -/

def appHidden : App :=
  ⟨[ruleHidden], fun _ => funcHidden⟩

/-- A view function whose docstring is the empty string. -/

def funcEmptyDoc : ViewFunc :=
  ⟨none, some "", [], none, none⟩

/-- A route served by the empty-docstring view function. -/

def appEmptyDoc : App :=
  ⟨[⟨"/c7", "c7", ["GET"], false, []⟩], fun _ => funcEmptyDoc⟩

/-- A view function with a two-line docstring. -/

def funcDocd : ViewFunc :=
  ⟨none, some "Line one\nline two", [], none, none⟩

/-- The route of the docstring example. -/

def ruleDocd : Rule :=
  ⟨"/c7w", "c7w", ["GET"], false, []⟩

/-- One-route app for the docstring example. -/

def appDocd : App :=
  ⟨[ruleDocd], fun _ => funcDocd⟩

/-- The document assembled for `appDocd`. -/

def docDocd : Document :=
  getOkD (_build_openapi_schema appDocd extPlain)

/-- The Path Item assembled for the docstring example. -/

def poDocd : PathObject :=
  ⟨[], [], some "line two", some "Line one", none⟩

/-!
Theorems: general lemmas about the embedded dictionary operations and the
builder, followed by the claim theorems with their witnesses and
counterexamples.
-/

theorem aget_ainsert {κ α : Type} [DecidableEq κ] (d : List (κ × α)) (k : κ) (v : α)
    (k' : κ) : aget (ainsert d k v) k' = if k' = k then some v else aget d k' := by
  induction d with
  | nil =>
      simp only [ainsert, aget]
      by_cases h : k' = k
      · simp [h]
      · have h2 : ¬ k = k' := fun hc => h hc.symm
        simp [h, h2]
  | cons p rest ih =>
      obtain ⟨pk, pv⟩ := p
      simp only [ainsert]
      by_cases hpk : pk = k
      · subst hpk
        by_cases h : k' = pk
        · simp [aget, h]
        · have h2 : ¬ pk = k' := fun hc => h hc.symm
          simp [aget, h, h2]
      · by_cases h : k' = pk
        · subst h
          simp [aget, hpk]
        · have h2 : ¬ pk = k' := fun hc => h hc.symm
          simp [aget, if_neg hpk, h, h2, ih]

theorem aget_aremove_self {κ α : Type} [DecidableEq κ] (d : List (κ × α)) (k : κ) :
    aget (aremove d k) k = none := by
  induction d with
  | nil => simp [aremove, aget]
  | cons p rest ih =>
      obtain ⟨pk, pv⟩ := p
      simp only [aremove]
      by_cases hpk : pk = k
      · simp [hpk, ih]
      · simp [hpk, aget, fun h : pk = k => hpk h, ih]

theorem aget_aremove_ne {κ α : Type} [DecidableEq κ] (d : List (κ × α)) (k k' : κ)
    (h : ¬ k' = k) : aget (aremove d k) k' = aget d k' := by
  induction d with
  | nil => simp [aremove]
  | cons p rest ih =>
      obtain ⟨pk, pv⟩ := p
      simp only [aremove]
      by_cases hpk : pk = k
      · subst hpk
        have h2 : ¬ pk = k' := fun hc => h hc.symm
        simp [aget, h2, ih]
      · by_cases hp : pk = k'
        · subst hp
          simp [aremove, hpk, aget]
        · simp [aremove, hpk, aget, hp, ih]

theorem aget_aupdate {κ α : Type} [DecidableEq κ] (c d : List (κ × α)) (k : κ) :
    aget (aupdate c d) k =
      match agetLast d k with
      | some v => some v
      | none => aget c k := by
  induction d generalizing c with
  | nil => simp [aupdate, agetLast]
  | cons p rest ih =>
      obtain ⟨pk, pv⟩ := p
      have step : aupdate c ((pk, pv) :: rest) = aupdate (ainsert c pk pv) rest := rfl
      rw [step, ih]
      cases hrest : agetLast rest k with
      | some r => simp [agetLast, hrest]
      | none =>
          by_cases hk : pk = k
          · subst hk
            simp [agetLast, hrest, aget_ainsert]
          · have hk' : ¬ k = pk := fun hc => hk (hc ▸ rfl)
            simp [agetLast, hrest, aget_ainsert, hk', hk]

theorem aget_mapVal {κ α β : Type} [DecidableEq κ] (f : α → β) (d : List (κ × α))
    (k : κ) : aget (d.map (fun p => (p.1, f p.2))) k = (aget d k).map f := by
  induction d with
  | nil => simp [aget]
  | cons p rest ih =>
      obtain ⟨pk, pv⟩ := p
      by_cases h : pk = k <;> simp [aget, h, ih]

theorem takeWhile_length_le {α : Type} (p : α → Bool) (l : List α) :
    (l.takeWhile p).length ≤ l.length := by
  induction l with
  | nil => simp
  | cons a t ih =>
      by_cases h : p a
      · simp only [List.takeWhile_cons_of_pos h, List.length_cons]
        omega
      · simp [List.takeWhile_cons_of_neg h]

theorem chompName_length {cs name rest : List Char}
    (h : chompName cs = some (name, rest)) : rest.length < cs.length := by
  unfold chompName at h
  split at h
  next rest2 heq =>
      split at h
      · exact absurd h (by simp)
      · simp only [Option.some.injEq, Prod.mk.injEq] at h
        obtain ⟨h1, h2⟩ := h
        have hlen := congrArg List.length heq
        have hle := takeWhile_length_le (fun c => decide (c ≠ '>')) cs
        simp only [List.length_drop, List.length_cons] at hlen
        subst h2
        omega
  next => exact absurd h (by simp)

theorem patMatchColon_length {cs name rest : List Char}
    (h : patMatchColon cs = some (name, rest)) : rest.length < cs.length := by
  unfold patMatchColon at h
  split at h
  next rest2 heq =>
      have h1 := chompName_length h
      have hlen := congrArg List.length heq
      have hle := takeWhile_length_le (fun c => decide (c ≠ ':')) cs
      simp only [List.length_drop, List.length_cons] at hlen
      omega
  next => exact absurd h (by simp)

theorem patMatchAt_length {cs name rest : List Char}
    (h : patMatchAt cs = some (name, rest)) : rest.length < cs.length := by
  cases cs with
  | nil => exact absurd h (by simp [patMatchAt])
  | cons c tl =>
      by_cases hc : c = '<'
      · subst hc
        have hdef : patMatchAt ('<' :: tl) =
            (match patMatchColon tl with
             | some r => some r
             | none => chompName tl) := rfl
        rw [hdef] at h
        cases hpc : patMatchColon tl with
        | some r =>
            rw [hpc] at h
            have hr : r = (name, rest) := Option.some.inj h
            subst hr
            have := patMatchColon_length hpc
            simp only [List.length_cons]
            omega
        | none =>
            rw [hpc] at h
            have := chompName_length h
            simp only [List.length_cons]
            omega
      · have h2 : patMatchAt (c :: tl) = none := by
          unfold patMatchAt
          split
          next heq =>
              exact absurd (List.head_eq_of_cons_eq heq.symm) (fun hh => hc hh.symm)
          next => rfl
        rw [h2] at h
        exact absurd h (by simp)

/-!
Lemmas about the verb-emission loop.
-/

theorem emitVerbsAux_preserve {auto : Bool} {idx : Nat} {v : String}
    (ms : List String) (inner : List (String × Nat))
    (h : aget inner v = some idx) :
    aget (emitVerbsAux auto ms idx inner) v = some idx := by
  induction ms generalizing inner with
  | nil => exact h
  | cons m rest ih =>
      unfold emitVerbsAux
      simp only [List.foldl_cons]
      by_cases hm : m = "HEAD" ∨ (m = "OPTIONS" ∧ auto = true)
      · rw [if_pos hm]
        exact ih inner h
      · rw [if_neg hm]
        apply ih
        rw [aget_ainsert]
        by_cases hv : v = lowerStr m
        · simp [hv]
        · simp [hv, h]

theorem emitVerbsAux_of_mem {auto : Bool} {idx : Nat} {v : String}
    (ms : List String) (inner : List (String × Nat))
    (h : ∃ m ∈ ms, ¬ (m = "HEAD" ∨ (m = "OPTIONS" ∧ auto = true)) ∧ lowerStr m = v) :
    aget (emitVerbsAux auto ms idx inner) v = some idx := by
  induction ms generalizing inner with
  | nil => simp at h
  | cons m rest ih =>
      obtain ⟨m0, hmem, hkeep, hlow⟩ := h
      unfold emitVerbsAux
      simp only [List.foldl_cons]
      rcases List.mem_cons.mp hmem with heq | hmem2
      · subst heq
        rw [if_neg hkeep]
        by_cases hrest : ∃ m2 ∈ rest, ¬ (m2 = "HEAD" ∨ (m2 = "OPTIONS" ∧ auto = true)) ∧ lowerStr m2 = v
        · exact ih _ hrest
        · apply emitVerbsAux_preserve
          rw [aget_ainsert]
          simp [hlow]
      · by_cases hm : m = "HEAD" ∨ (m = "OPTIONS" ∧ auto = true)
        · rw [if_pos hm]
          exact ih _ ⟨m0, hmem2, hkeep, hlow⟩
        · rw [if_neg hm]
          exact ih _ ⟨m0, hmem2, hkeep, hlow⟩

theorem emitVerbsAux_of_none {auto : Bool} {idx : Nat} {v : String}
    (ms : List String) (inner : List (String × Nat))
    (h : ∀ m ∈ ms, (m = "HEAD" ∨ (m = "OPTIONS" ∧ auto = true)) ∨ ¬ lowerStr m = v) :
    aget (emitVerbsAux auto ms idx inner) v = aget inner v := by
  induction ms generalizing inner with
  | nil => rfl
  | cons m rest ih =>
      unfold emitVerbsAux
      simp only [List.foldl_cons]
      rcases h m (List.mem_cons_self m rest) with hskip | hne
      · rw [if_pos hskip]
        exact ih _ (fun m2 hm2 => h m2 (List.mem_cons_of_mem m hm2))
      · by_cases hm : m = "HEAD" ∨ (m = "OPTIONS" ∧ auto = true)
        · rw [if_pos hm]
          exact ih _ (fun m2 hm2 => h m2 (List.mem_cons_of_mem m hm2))
        · rw [if_neg hm]
          have h2 := ih (ainsert inner (lowerStr m) idx)
            (fun m2 hm2 => h m2 (List.mem_cons_of_mem m hm2))
          unfold emitVerbsAux at h2
          rw [h2, aget_ainsert]
          have hvne : ¬ v = lowerStr m := fun hc => hne hc.symm
          rw [if_neg hvne]

theorem emitVerbsAux_isSome_iff {auto : Bool} {idx : Nat} (ms : List String)
    (v : String) :
    (aget (emitVerbsAux auto ms idx []) v).isSome = true ↔
      ∃ m ∈ ms, ¬ (m = "HEAD" ∨ (m = "OPTIONS" ∧ auto = true)) ∧ lowerStr m = v := by
  constructor
  · intro hsome
    by_contra hno
    rw [emitVerbsAux_of_none ms []] at hsome
    · simp [aget] at hsome
    · intro m hm
      by_cases hskip : m = "HEAD" ∨ (m = "OPTIONS" ∧ auto = true)
      · exact Or.inl hskip
      · refine Or.inr (fun hlow => hno ⟨m, hm, hskip, hlow⟩)
  · intro h
    rw [emitVerbsAux_of_mem ms [] h]
    rfl

theorem mem_ainsert {κ α : Type} [DecidableEq κ] {p : κ × α}
    (d : List (κ × α)) (k : κ) (v : α) (h : p ∈ ainsert d k v) :
    p = (k, v) ∨ p ∈ d := by
  induction d with
  | nil => simpa [ainsert] using h
  | cons q rest ih =>
      obtain ⟨qk, qv⟩ := q
      unfold ainsert at h
      by_cases hq : qk = k
      · rw [if_pos hq] at h
        rcases List.mem_cons.mp h with h1 | h2
        · exact Or.inl h1
        · exact Or.inr (List.mem_cons_of_mem _ h2)
      · rw [if_neg hq] at h
        rcases List.mem_cons.mp h with h1 | h2
        · exact Or.inr (h1 ▸ List.mem_cons_self _ _)
        · rcases ih h2 with h3 | h4
          · exact Or.inl h3
          · exact Or.inr (List.mem_cons_of_mem _ h4)

theorem emitVerbsAux_values {auto : Bool} {idx : Nat} {p : String × Nat}
    (ms : List String) (inner : List (String × Nat))
    (h : p ∈ emitVerbsAux auto ms idx inner) : p.2 = idx ∨ p ∈ inner := by
  induction ms generalizing inner with
  | nil => exact Or.inr h
  | cons m rest ih =>
      unfold emitVerbsAux at h
      simp only [List.foldl_cons] at h
      by_cases hm : m = "HEAD" ∨ (m = "OPTIONS" ∧ auto = true)
      · rw [if_pos hm] at h
        exact ih _ h
      · rw [if_neg hm] at h
        rcases ih _ h with h1 | h2
        · exact Or.inl h1
        · rcases mem_ainsert _ _ _ h2 with h3 | h4
          · exact Or.inl (by rw [h3])
          · exact Or.inr h4

/-!
Characterization of one successful loop iteration, and preservation of the
docstring-derived Path Item fields through the later build steps.
-/

theorem processRule_hidden {ext : FlaskSchema} {vf : String → ViewFunc}
    {st : BuildState} {r : Rule} (h : getattrHidden (vf r.endpoint) = true) :
    processRule ext vf st r = Except.ok st := by
  unfold processRule
  simp [h]

theorem processRules_all_hidden {ext : FlaskSchema} {vf : String → ViewFunc}
    (rules : List Rule) (st : BuildState)
    (h : ∀ r ∈ rules, getattrHidden (vf r.endpoint) = true) :
    processRules ext vf rules st = Except.ok st := by
  induction rules with
  | nil => rfl
  | cons r rest ih =>
      unfold processRules
      rw [processRule_hidden (h r (List.mem_cons_self r rest))]
      exact ih (fun r2 hr2 => h r2 (List.mem_cons_of_mem r hr2))

theorem processRule_ok_shape {ext : FlaskSchema} {vf : String → ViewFunc}
    {st st2 : BuildState} {r : Rule}
    (hhid : getattrHidden (vf r.endpoint) = false)
    (h : processRule ext vf st r = Except.ok st2) :
    ∃ (pobj1 : PathObject) (qd : PathObject × JDict),
      applyDoc (vf r.endpoint) initPathObject = Except.ok pobj1 ∧
      applyQuery ext (vf r.endpoint)
        (applyRequest ext (vf r.endpoint)
          (applyResponses ext (vf r.endpoint) pobj1 st.schemas).1
          (applyResponses ext (vf r.endpoint) pobj1 st.schemas).2).1
        (applyRequest ext (vf r.endpoint)
          (applyResponses ext (vf r.endpoint) pobj1 st.schemas).1
          (applyResponses ext (vf r.endpoint) pobj1 st.schemas).2).2
        = Except.ok qd ∧
      st2 = ⟨ainsert (asetdefault st.paths (rewritePath r.rule) [])
               (rewritePath r.rule)
               (emitVerbs r st.store.length
                 ((aget (asetdefault st.paths (rewritePath r.rule) [])
                    (rewritePath r.rule)).getD [])),
             qd.2,
             st.store ++ [appendPathParams r qd.1]⟩ := by
  simp only [processRule, hhid, Bool.false_eq_true, if_false] at h
  cases hdoc : applyDoc (vf r.endpoint) initPathObject with
  | error e => rw [hdoc] at h; exact absurd h (by simp)
  | ok pobj1 =>
      rw [hdoc] at h
      simp only [] at h
      cases hq : applyQuery ext (vf r.endpoint)
          (applyRequest ext (vf r.endpoint)
            (applyResponses ext (vf r.endpoint) pobj1 st.schemas).1
            (applyResponses ext (vf r.endpoint) pobj1 st.schemas).2).1
          (applyRequest ext (vf r.endpoint)
            (applyResponses ext (vf r.endpoint) pobj1 st.schemas).1
            (applyResponses ext (vf r.endpoint) pobj1 st.schemas).2).2 with
      | error e => rw [hq] at h; exact absurd h (by simp)
      | ok qd =>
          rw [hq] at h
          simp only [Except.ok.injEq] at h
          exact ⟨pobj1, qd, rfl, hq, h.symm⟩

theorem processRules_single {ext : FlaskSchema} {vf : String → ViewFunc}
    {st st2 : BuildState} {r : Rule}
    (h : processRules ext vf [r] st = Except.ok st2) :
    processRule ext vf st r = Except.ok st2 := by
  unfold processRules at h
  cases hp : processRule ext vf st r with
  | error e => rw [hp] at h; exact absurd h (by simp)
  | ok st3 =>
      rw [hp] at h
      simp only [processRules, Except.ok.injEq] at h
      rw [h]

theorem respFold_keeps (ext : FlaskSchema) (ms : List (Nat × ModelType)) :
    ∀ (pobj : PathObject) (s : JDict),
      ((ms.foldl (responseStep ext) (pobj, s)).1.summary = pobj.summary ∧
       (ms.foldl (responseStep ext) (pobj, s)).1.description = pobj.description) ∧
      (ms.foldl (responseStep ext) (pobj, s)).1.parameters = pobj.parameters ∧
      (ms.foldl (responseStep ext) (pobj, s)).1.requestBody = pobj.requestBody := by
  induction ms with
  | nil => intro pobj s; exact ⟨⟨rfl, rfl⟩, rfl, rfl⟩
  | cons p rest ih =>
      intro pobj s
      simp only [List.foldl_cons]
      exact ih _ _

theorem applyResponses_keeps (ext : FlaskSchema) (func : ViewFunc)
    (pobj : PathObject) (s : JDict) :
    (applyResponses ext func pobj s).1.summary = pobj.summary ∧
    (applyResponses ext func pobj s).1.description = pobj.description := by
  exact (respFold_keeps ext func.response_models pobj s).1

theorem applyRequest_keeps (ext : FlaskSchema) (func : ViewFunc)
    (pobj : PathObject) (s : JDict) :
    (applyRequest ext func pobj s).1.summary = pobj.summary ∧
    (applyRequest ext func pobj s).1.description = pobj.description := by
  unfold applyRequest
  cases func.request_data with
  | none => exact ⟨rfl, rfl⟩
  | some rd => exact ⟨rfl, rfl⟩

theorem applyQuery_keeps {ext : FlaskSchema} {func : ViewFunc}
    {pobj : PathObject} {s : JDict} {qd : PathObject × JDict}
    (h : applyQuery ext func pobj s = Except.ok qd) :
    qd.1.summary = pobj.summary ∧ qd.1.description = pobj.description := by
  unfold applyQuery at h
  cases hq : func.querystring_model with
  | none =>
      rw [hq] at h
      simp only [Except.ok.injEq] at h
      rw [← h]
      exact ⟨rfl, rfl⟩
  | some qm =>
      rw [hq] at h
      simp only [] at h
      cases hprops : aget (fragmentFor ext qm s).1 "properties" with
      | none => rw [hprops] at h; exact absurd h (by simp)
      | some pv =>
          rw [hprops] at h
          cases pv with
          | obj props =>
              simp only [Except.ok.injEq] at h
              rw [← h]
              exact ⟨rfl, rfl⟩
          | null => exact absurd h (by simp)
          | bool b => exact absurd h (by simp)
          | num n => exact absurd h (by simp)
          | str s2 => exact absurd h (by simp)
          | arr xs => exact absurd h (by simp)

theorem appendPathParams_keeps (r : Rule) (pobj : PathObject) :
    (appendPathParams r pobj).summary = pobj.summary ∧
    (appendPathParams r pobj).description = pobj.description :=
  ⟨rfl, rfl⟩

theorem build_single_shape {app : App} {ext : FlaskSchema} {r : Rule}
    {d : Document} (hr : app.rules = [r])
    (hhid : getattrHidden (app.view_functions r.endpoint) = false)
    (h : _build_openapi_schema app ext = Except.ok d) :
    ∃ (pobj1 pobj : PathObject),
      applyDoc (app.view_functions r.endpoint) initPathObject = Except.ok pobj1 ∧
      pobj.summary = pobj1.summary ∧
      pobj.description = pobj1.description ∧
      d.paths = [(rewritePath r.rule,
        (emitVerbs r 0 []).map (fun q => (q.1, pobj)))] := by
  unfold _build_openapi_schema at h
  cases hps : processRules ext app.view_functions app.rules initState with
  | error e => rw [hps] at h; exact absurd h (by simp)
  | ok st =>
      rw [hps] at h
      simp only [Except.ok.injEq] at h
      rw [hr] at hps
      have hpr := processRules_single hps
      obtain ⟨pobj1, qd, hdoc, hq, hst⟩ := processRule_ok_shape hhid hpr
      have h1 := applyResponses_keeps ext (app.view_functions r.endpoint) pobj1
        initState.schemas
      have h2 := applyRequest_keeps ext (app.view_functions r.endpoint)
        (applyResponses ext (app.view_functions r.endpoint) pobj1 initState.schemas).1
        (applyResponses ext (app.view_functions r.endpoint) pobj1 initState.schemas).2
      have h3 := applyQuery_keeps hq
      have h4 := appendPathParams_keeps r qd.1
      refine ⟨pobj1, appendPathParams r qd.1, hdoc, ?_, ?_, ?_⟩
      · rw [h4.1, h3.1, h2.1, h1.1]
      · rw [h4.2, h3.2, h2.2, h1.2]
      · rw [← h]
        simp only []
        rw [hst]
        simp only [initState, derefPaths, emitVerbs]
        have hsd : asetdefault ([] : List (String × List (String × Nat)))
            (rewritePath r.rule) [] = [(rewritePath r.rule, [])] := rfl
        rw [hsd]
        have hag : aget [(rewritePath r.rule, ([] : List (String × Nat)))]
            (rewritePath r.rule) = some [] := by
          simp [aget]
        rw [hag]
        have hin : ainsert [(rewritePath r.rule, ([] : List (String × Nat)))]
            (rewritePath r.rule)
            (emitVerbsAux r.provide_automatic_options r.methods 0 []) =
            [(rewritePath r.rule,
              emitVerbsAux r.provide_automatic_options r.methods 0 [])] := by
          simp [ainsert]
        simp only [List.length_nil, Option.getD_some, List.nil_append]
        rw [hin]
        simp only [List.map_cons, List.map_nil]
        have hmapeq : List.map
            (fun q => (q.1, ([appendPathParams r qd.1][q.2]?).getD initPathObject))
            (emitVerbsAux r.provide_automatic_options r.methods 0 []) =
            List.map (fun q => (q.1, appendPathParams r qd.1))
              (emitVerbsAux r.provide_automatic_options r.methods 0 []) := by
          apply List.map_congr_left
          intro q hmem
          rcases emitVerbsAux_values r.methods [] hmem with hq0 | habs
          · rw [hq0]
            simp
          · exact absurd habs (by simp)
        rw [hmapeq]

/-- C1: Component-table merging deduplicates shared named sub-schemas and
resolves collisions by silent overwrite.  First conjunct: merging definition
tables into the components mapping by repeated `update` makes the latest
writer of a name win, falling back through earlier tables, and reports no
error (the merge is total).  Next conjuncts: for the route with response
models `{200: ModelA, 404: ModelB}` both referencing the named sub-schema
`Error`, the build succeeds, the final components table holds exactly the one
`Error` entry, and the two stripped response fragments both reference it via
the identical `$ref` string built from the fixed prefix.  Final conjunct: all
three merge sites feed the one global table — for a route with response model
`ModelA` (definitions `{Error}`) and a request model (definitions `{ReqDef}`,
merged by line 278), the table holds exactly those two entries in processing
order. -/

theorem component_merge_dedup :
    (∀ (c d1 d2 : JDict) (k : String),
        aget (aupdate (aupdate c d1) d2) k =
          match agetLast d2 k with
          | some v => some v
          | none =>
              match agetLast d1 k with
              | some v => some v
              | none => aget c k) ∧
    _build_openapi_schema appShared extPlain = Except.ok docShared ∧
    docShared.componentSchemas = [("Error", errorComponent)] ∧
    docRespSchema docShared "/shared" "get" 200 =
      some (Json.obj [("title", Json.str "ModelA"), ("type", Json.str "object"),
        ("properties", Json.obj
          [("error", Json.obj [("$ref", Json.str (REF_PREFIX_STR ++ "Error"))])])]) ∧
    docRespSchema docShared "/shared" "get" 404 =
      some (Json.obj [("title", Json.str "ModelB"), ("type", Json.str "object"),
        ("properties", Json.obj
          [("err", Json.obj [("$ref", Json.str (REF_PREFIX_STR ++ "Error"))])])]) ∧
    _build_openapi_schema appReq extPlain = Except.ok docReq ∧
    docReq.componentSchemas =
      [("Error", errorComponent), ("ReqDef", reqComponent)] := by
  refine ⟨?_, rfl, rfl, rfl, rfl, rfl, rfl⟩
  intro c d1 d2 k
  rw [aget_aupdate]
  cases h2 : agetLast d2 k with
  | some v => rfl
  | none =>
      cases h1 : agetLast d1 k with
      | some v => rw [aget_aupdate, h1]
      | none => rw [aget_aupdate, h1]

/-- C4 (divergence witness): evaluating the path rewrite of the code at the
failing pattern `/a/<x>/b/<int:y>`: the single greedy `PATH_RE` match spans
from the first `<` to the last `>`, so the whole segment collapses to `{y}`
instead of rewriting each placeholder, while the claim's own single-placeholder
example still rewrites as stated. -/

theorem path_rewrite_failing_input :
    rewritePath "/a/<x>/b/<int:y>" = "/a/{y}" ∧
    ¬ rewritePath "/a/<x>/b/<int:y>" = "/a/{x}/b/{y}" ∧
    rewritePath "/items/<int:item_id>" = "/items/{item_id}" := by
  refine ⟨rfl, ?_, rfl⟩
  decide

/-- C6 (counterexample): `coerce` is not shallow on dataclass instances: for a
dataclass whose field `x` holds another dataclass, `asdict` recurses, so the
returned mapping binds `x` to a plain dict rather than to the untouched nested
dataclass instance that a one-level conversion would keep. -/

theorem coerce_not_shallow :
    convert_model_result_value
        (PyVal.dataclass [("x", PyVal.dataclass [("y", PyVal.int 1)])]) =
      PyVal.dict [(PyVal.str "x", PyVal.dict [(PyVal.str "y", PyVal.int 1)])] ∧
    ¬ PyVal.dict [(PyVal.str "x", PyVal.dict [(PyVal.str "y", PyVal.int 1)])] =
      PyVal.dict [(PyVal.str "x", PyVal.dataclass [("y", PyVal.int 1)])] := by
  refine ⟨rfl, ?_⟩
  simp

theorem asdictFields_eq_map (fs : List (String × PyVal)) :
    asdictFields fs = fs.map (fun p => (PyVal.str p.1, asdictInner p.2)) := by
  induction fs with
  | nil => rfl
  | cons p rest ih =>
      obtain ⟨k, v⟩ := p
      simp only [asdictFields, List.map_cons, ih]

theorem modelDictFields_eq_map (fs : List (String × PyVal)) :
    modelDictFields fs = fs.map (fun p => (PyVal.str p.1, modelDictVal p.2)) := by
  induction fs with
  | nil => rfl
  | cons p rest ih =>
      obtain ⟨k, v⟩ := p
      simp only [modelDictFields, List.map_cons, ih]

/-- C6 (amended): the Model Coercer converts a dataclass instance to the dict
of its declared fields with each field value converted by the recursive
`asdict` (nested dataclasses, dicts, lists and tuples are converted, not
passed through); a validation-model instance to its canonical dictionary (its
declared fields, values converted recursively); and every other value is
returned unchanged. -/

theorem coerce_contract_amended :
    (∀ fs, convert_model_result_value (PyVal.dataclass fs) =
      PyVal.dict (fs.map (fun p => (PyVal.str p.1, asdictInner p.2)))) ∧
    (∀ fs, convert_model_result_value (PyVal.model fs) =
      PyVal.dict (fs.map (fun p => (PyVal.str p.1, modelDictVal p.2)))) ∧
    (∀ v, isDataclass v = false → isBaseModel v = false →
      convert_model_result_value v = v) := by
  refine ⟨?_, ?_, ?_⟩
  · intro fs
    show PyVal.dict (asdictFields fs) = _
    rw [asdictFields_eq_map]
  · intro fs
    show PyVal.dict (modelDictFields fs) = _
    rw [modelDictFields_eq_map]
  · intro v h1 h2
    unfold convert_model_result_value
    rw [h1, h2]
    rfl

/-- C6 (amended, witness): the amended contract evaluated at a string scalar
and at a concrete one-field dataclass. -/

theorem coerce_contract_amended_witness :
    convert_model_result_value (PyVal.str "ok") = PyVal.str "ok" ∧
    convert_model_result_value (PyVal.dataclass [("a", PyVal.int 2)]) =
      PyVal.dict [(PyVal.str "a", PyVal.int 2)] :=
  ⟨coerce_contract_amended.2.2 (PyVal.str "ok") rfl rfl,
   coerce_contract_amended.1 [("a", PyVal.int 2)]⟩

/-- C8: splitting a schema fragment returns the value of its `definitions`
key (the empty object when the key is absent), together with the fragment
whose other entries are unchanged and which never retains a `definitions`
key. -/

theorem split_definitions_contract (s : JDict) :
    (aget s "definitions" = none → (split_definitions s).1 = Json.obj []) ∧
    (∀ v, aget s "definitions" = some v → (split_definitions s).1 = v) ∧
    (∀ k, ¬ k = "definitions" →
      aget (split_definitions s).2 k = aget s k) ∧
    aget (split_definitions s).2 "definitions" = none := by
  refine ⟨?_, ?_, ?_, ?_⟩
  · intro h
    simp [split_definitions, dictPop, h]
  · intro v h
    simp [split_definitions, dictPop, h]
  · intro k hk
    simp only [split_definitions, dictPop]
    exact aget_aremove_ne s "definitions" k hk
  · simp only [split_definitions, dictPop]
    exact aget_aremove_self s "definitions"

/-- C8 (witness): the splitting contract evaluated at a concrete fragment
with a `definitions` table and a `type` entry. -/

theorem split_definitions_contract_witness :
    (split_definitions [("type", Json.str "object"),
        ("definitions", Json.obj [("E", Json.str "e")])]).1 =
      Json.obj [("E", Json.str "e")] ∧
    aget (split_definitions [("type", Json.str "object"),
        ("definitions", Json.obj [("E", Json.str "e")])]).2 "type" =
      some (Json.str "object") ∧
    aget (split_definitions [("type", Json.str "object"),
        ("definitions", Json.obj [("E", Json.str "e")])]).2 "definitions" =
      none :=
  ⟨(split_definitions_contract _).2.1 (Json.obj [("E", Json.str "e")]) rfl,
   (split_definitions_contract _).2.2.1 "type" (by decide),
   (split_definitions_contract _).2.2.2⟩

/-- C9: regeneration is idempotent: serving the document leaves the server
state unchanged, and serving it again from the state returned by the first
request yields the same document — the builder reads only the route table and
configuration and accumulates into fresh private mappings. -/

theorem idempotent_regeneration (s : ServerState) :
    (handleOpenapiRequest s).2 = s ∧
    (handleOpenapiRequest ((handleOpenapiRequest s).2)).1 =
      (handleOpenapiRequest s).1 :=
  ⟨rfl, rfl⟩

/-- C10: `_split_definitions` does not mutate its argument: at the heap level
the pop acts only on the freshly allocated copy, so after the call the dict at
the argument's address is unchanged (its `definitions` binding included),
while the returned pair agrees with the pure splitting of the argument's
contents. -/

theorem split_definitions_frame (h : Heap) (a : Nat) :
    hread (split_definitions_heap h a).2 a = hread h a ∧
    aget (hread (split_definitions_heap h a).2 a) "definitions" =
      aget (hread h a) "definitions" ∧
    (split_definitions_heap h a).1.1 = (split_definitions (hread h a)).1 ∧
    hread (split_definitions_heap h a).2 (split_definitions_heap h a).1.2 =
      (split_definitions (hread h a)).2 := by
  have hframe : hread (split_definitions_heap h a).2 a = hread h a := by
    simp only [split_definitions_heap, hread]
    by_cases hlt : a < h.length
    · rw [List.getElem?_set_ne (by omega), List.getElem?_append_left hlt]
    · by_cases heq : a = h.length
      · subst heq
        have hnone : h[h.length]? = none := List.getElem?_eq_none (Nat.le_refl _)
        rw [List.getElem?_set_self (by simp), hnone]
        simp [dictPop, aremove]
      · rw [List.getElem?_set_ne (by omega)]
        have h1 : (h ++ [h[a]?.getD []])[a]? = none :=
          List.getElem?_eq_none (by simp; omega)
        have h2 : h[a]? = none := List.getElem?_eq_none (by omega)
        rw [h1, h2]
  refine ⟨hframe, by rw [hframe], rfl, ?_⟩
  simp only [split_definitions_heap, hread]
  rw [List.getElem?_set_self (by simp)]
  rfl

theorem aget_map_const {κ α β : Type} [DecidableEq κ] (b : β)
    (d : List (κ × α)) (k : κ) :
    aget (d.map (fun p => (p.1, b))) k = (aget d k).map (fun _ => b) := by
  induction d with
  | nil => simp [aget]
  | cons p rest ih =>
      obtain ⟨pk, pv⟩ := p
      by_cases h : pk = k <;> simp [aget, h, ih]

theorem aget_map_getElem (store : List PathObject) (d : List (String × Nat))
    (k : String) :
    aget (d.map (fun q => (q.1, (store[q.2]?).getD initPathObject))) k =
      (aget d k).map (fun i => (store[i]?).getD initPathObject) := by
  induction d with
  | nil => simp [aget]
  | cons p rest ih =>
      obtain ⟨pk, pv⟩ := p
      by_cases h : pk = k <;> simp [aget, h, ih]

theorem docVerb_eq {paths : List (String × List (String × PathObject))}
    {p : String} {vm : List (String × PathObject)} (v : String)
    (h : aget paths p = some vm) : docVerb paths p v = aget vm v := by
  unfold docVerb
  rw [h]

theorem verbEntry_eq {pobj po : PathObject} {emit : List (String × Nat)}
    {p verb : String}
    (hpo : docVerb [(p, emit.map (fun q => (q.1, pobj)))] p verb = some po) :
    po = pobj := by
  have houter : aget [(p, emit.map (fun q => (q.1, pobj)))] p =
      some (emit.map (fun q => (q.1, pobj))) := by
    simp [aget]
  rw [docVerb_eq verb houter, aget_map_const] at hpo
  cases hv : aget emit verb with
  | none => rw [hv] at hpo; exact absurd hpo (by simp)
  | some i =>
      rw [hv] at hpo
      exact (Option.some.inj hpo).symm

theorem applyDoc_some_eq {func : ViewFunc} {pobj1 : PathObject} {dstr s : String}
    {rest : List String} (hattr : func.doc = some dstr)
    (hsplit : splitlines dstr = s :: rest)
    (h : applyDoc func initPathObject = Except.ok pobj1) :
    pobj1 = { initPathObject with
      description := some (String.intercalate "\n" rest),
      summary := some s } := by
  unfold applyDoc at h
  rw [hattr] at h
  simp only [] at h
  rw [hsplit] at h
  simp only [Except.ok.injEq] at h
  exact h.symm

theorem applyDoc_none_eq {func : ViewFunc} {pobj1 : PathObject}
    (hattr : func.doc = none)
    (h : applyDoc func initPathObject = Except.ok pobj1) :
    pobj1 = initPathObject := by
  unfold applyDoc at h
  rw [hattr] at h
  simp only [Except.ok.injEq] at h
  exact h.symm

theorem applyDoc_empty_fails {func : ViewFunc} {dstr : String}
    (hattr : func.doc = some dstr) (hsplit : splitlines dstr = [])
    (pobj1 : PathObject) :
    ¬ applyDoc func initPathObject = Except.ok pobj1 := by
  intro h
  unfold applyDoc at h
  rw [hattr] at h
  simp only [] at h
  rw [hsplit] at h
  exact absurd h (by simp)

theorem single_rule_state {ext : FlaskSchema} {vf : String → ViewFunc}
    {r : Rule} {st : BuildState}
    (hhid : getattrHidden (vf r.endpoint) = false)
    (h : processRules ext vf [r] initState = Except.ok st) :
    ∃ (pobj : PathObject) (schemas : JDict),
      st = ⟨[(rewritePath r.rule, emitVerbs r 0 [])], schemas, [pobj]⟩ := by
  have hpr := processRules_single h
  obtain ⟨pobj1, qd, hdoc, hq, hst⟩ := processRule_ok_shape hhid hpr
  refine ⟨appendPathParams r qd.1, qd.2, ?_⟩
  rw [hst]
  simp [initState, asetdefault, aget, ainsert, emitVerbs]

/-- C2: verb emission filter: for a (single-route) app whose route is not
hidden and builds successfully, the document has a verb dict at the rewritten
path whose keys are exactly the lowercased registered methods, minus `HEAD`
always and minus `OPTIONS` exactly when the automatic-OPTIONS flag is set. -/

theorem verb_emission_filter {app : App} {ext : FlaskSchema} {r : Rule}
    {d : Document} (hr : app.rules = [r])
    (hhid : getattrHidden (app.view_functions r.endpoint) = false)
    (h : _build_openapi_schema app ext = Except.ok d) :
    ∃ vm, aget d.paths (rewritePath r.rule) = some vm ∧
      ∀ v : String, (aget vm v).isSome = true ↔
        ∃ m ∈ r.methods,
          ¬ (m = "HEAD" ∨ (m = "OPTIONS" ∧ r.provide_automatic_options = true)) ∧
          lowerStr m = v := by
  obtain ⟨pobj1, pobj, hdoc, hsum, hdesc, hpaths⟩ := build_single_shape hr hhid h
  refine ⟨(emitVerbs r 0 []).map (fun q => (q.1, pobj)), ?_, ?_⟩
  · rw [hpaths]
    simp [aget]
  · intro v
    rw [aget_map_const]
    have hs : (Option.map (fun _ => pobj) (aget (emitVerbs r 0 []) v)).isSome =
        (aget (emitVerbs r 0 []) v).isSome := by
      cases aget (emitVerbs r 0 []) v <;> rfl
    rw [hs]
    exact emitVerbsAux_isSome_iff r.methods v

/-- C2 (witness): the filter evaluated on the route with methods
`{GET, HEAD, OPTIONS}` and auto-added OPTIONS: the verb-set characterization
holds, and the emitted verb set is exactly `{"get"}`. -/

theorem verb_emission_filter_witness :
    (∃ vm, aget docGHO.paths (rewritePath ruleGHO.rule) = some vm ∧
      ∀ v : String, (aget vm v).isSome = true ↔
        ∃ m ∈ ruleGHO.methods,
          ¬ (m = "HEAD" ∨ (m = "OPTIONS" ∧ ruleGHO.provide_automatic_options = true)) ∧
          lowerStr m = v) ∧
    (docVerb docGHO.paths "/c2" "get").isSome = true ∧
    docVerb docGHO.paths "/c2" "options" = none ∧
    docVerb docGHO.paths "/c2" "head" = none :=
  ⟨@verb_emission_filter appGHO extPlain ruleGHO docGHO rfl rfl rfl,
   rfl, rfl, rfl⟩

/-- C3: Path Item sharing: for a non-hidden route registered under GET and
POST, the two verb entries hold the same store address (the one `path_object`
built for the route), so any mutation of the stored object is observed
identically through `paths[path]["get"]` and `paths[path]["post"]`. -/

theorem path_item_sharing {ext : FlaskSchema} {vf : String → ViewFunc}
    {r : Rule} {st : BuildState}
    (hhid : getattrHidden (vf r.endpoint) = false)
    (hget : "GET" ∈ r.methods) (hpost : "POST" ∈ r.methods)
    (h : processRules ext vf [r] initState = Except.ok st) :
    ∃ inner, aget st.paths (rewritePath r.rule) = some inner ∧
      aget inner "get" = some 0 ∧ aget inner "post" = some 0 ∧
      ∀ f : PathObject → PathObject,
        docVerb (derefPaths (st.store.set 0 (f ((st.store[0]?).getD initPathObject)))
            st.paths) (rewritePath r.rule) "get" =
        docVerb (derefPaths (st.store.set 0 (f ((st.store[0]?).getD initPathObject)))
            st.paths) (rewritePath r.rule) "post" := by
  obtain ⟨pobj, schemas, hst⟩ := single_rule_state hhid h
  have hgetv : aget (emitVerbs r 0 []) "get" = some 0 := by
    apply emitVerbsAux_of_mem
    refine ⟨"GET", hget, ?_, by decide⟩
    intro hc
    rcases hc with hc | ⟨hc, _⟩ <;> exact absurd hc (by decide)
  have hpostv : aget (emitVerbs r 0 []) "post" = some 0 := by
    apply emitVerbsAux_of_mem
    refine ⟨"POST", hpost, ?_, by decide⟩
    intro hc
    rcases hc with hc | ⟨hc, _⟩ <;> exact absurd hc (by decide)
  rw [hst]
  refine ⟨emitVerbs r 0 [], by simp [aget], hgetv, hpostv, ?_⟩
  intro f
  simp only [derefPaths, List.map_cons, List.map_nil]
  have houter : aget [((rewritePath r.rule),
      (emitVerbs r 0 []).map (fun q =>
        (q.1, (([pobj].set 0 (f (([pobj][0]?).getD initPathObject)))[q.2]?).getD
          initPathObject)))] (rewritePath r.rule) =
      some ((emitVerbs r 0 []).map (fun q =>
        (q.1, (([pobj].set 0 (f (([pobj][0]?).getD initPathObject)))[q.2]?).getD
          initPathObject))) := by
    simp [aget]
  rw [docVerb_eq "get" houter, docVerb_eq "post" houter]
  rw [aget_map_getElem, aget_map_getElem, hgetv, hpostv]

/-- C3 (witness): the sharing property evaluated on the concrete GET+POST
route. -/

theorem path_item_sharing_witness :
    ∃ inner, aget stGP.paths (rewritePath ruleGP.rule) = some inner ∧
      aget inner "get" = some 0 ∧ aget inner "post" = some 0 ∧
      ∀ f : PathObject → PathObject,
        docVerb (derefPaths (stGP.store.set 0 (f ((stGP.store[0]?).getD initPathObject)))
            stGP.paths) (rewritePath ruleGP.rule) "get" =
        docVerb (derefPaths (stGP.store.set 0 (f ((stGP.store[0]?).getD initPathObject)))
            stGP.paths) (rewritePath ruleGP.rule) "post" :=
  @path_item_sharing extPlain (fun _ => funcPlain) ruleGP stGP rfl
    (by decide) (by decide) rfl

/-- C5: hidden-route exclusion: an app all of whose routes carry the hidden
marker builds the sparse document (empty `paths`, empty component table)
regardless of any other metadata; a view function the marker was never applied
to reads as not hidden; and a single-route app whose function has no hidden
marker does contribute its path to `paths`. -/

theorem hidden_route_exclusion :
    (∀ (app : App) (ext : FlaskSchema),
      (∀ r ∈ app.rules, getattrHidden (app.view_functions r.endpoint) = true) →
      _build_openapi_schema app ext = Except.ok
        { openapi := "3.0.3", title := ext.title, version := ext.version,
          componentSchemas := [], paths := [], tags := ext.tags,
          servers := ext.servers }) ∧
    (∀ (dstr : Option String) (rm : List (Nat × ModelType))
        (rd : Option (ModelType × DataSource)) (qs : Option ModelType),
      getattrHidden ⟨none, dstr, rm, rd, qs⟩ = false) ∧
    (∀ (app : App) (ext : FlaskSchema) (r : Rule) (d : Document),
      app.rules = [r] →
      (app.view_functions r.endpoint).hidden = none →
      _build_openapi_schema app ext = Except.ok d →
      ¬ aget d.paths (rewritePath r.rule) = none) := by
  refine ⟨?_, ?_, ?_⟩
  · intro app ext hall
    unfold _build_openapi_schema
    rw [processRules_all_hidden app.rules initState hall]
    rfl
  · intro dstr rm rd qs
    rfl
  · intro app ext r d hr hn h hnone
    have hhid : getattrHidden (app.view_functions r.endpoint) = false := by
      unfold getattrHidden
      rw [hn]
      rfl
    obtain ⟨pobj1, pobj, _, _, _, hpaths⟩ := build_single_shape hr hhid h
    rw [hpaths] at hnone
    simp [aget] at hnone

/-- C5 (witness): the exclusion evaluated on the concrete hidden route (its
response model contributes nothing), the default query on an unmarked
function, and the unmarked `/c2` route appearing in `paths`. -/

theorem hidden_route_exclusion_witness :
    _build_openapi_schema appHidden extPlain = Except.ok
      { openapi := "3.0.3", title := extPlain.title,
        version := extPlain.version, componentSchemas := [], paths := [],
        tags := extPlain.tags, servers := extPlain.servers } ∧
    getattrHidden ⟨none, none, [], none, none⟩ = false ∧
    ¬ aget docGHO.paths (rewritePath ruleGHO.rule) = none :=
  ⟨hidden_route_exclusion.1 appHidden extPlain
      (by intro r hr; cases hr with
          | head => rfl
          | tail _ hmem => cases hmem),
   hidden_route_exclusion.2.1 none [] none none,
   hidden_route_exclusion.2.2 appGHO extPlain ruleGHO docGHO rfl rfl rfl⟩

/-- C7 (amended): for a non-hidden single-route app, a docstring with at least
one line puts its first line into `summary` and the remaining lines joined by
newline into `description` of the route's Path Item; no docstring omits both
keys; and an EMPTY docstring makes the whole builder raise (the starred
unpacking of zero lines), so no document is produced at all. -/

theorem docstring_summary_amended :
    (∀ (app : App) (ext : FlaskSchema) (r : Rule) (d : Document)
        (dstr s : String) (rest : List String),
      app.rules = [r] →
      getattrHidden (app.view_functions r.endpoint) = false →
      (app.view_functions r.endpoint).doc = some dstr →
      splitlines dstr = s :: rest →
      _build_openapi_schema app ext = Except.ok d →
      ∀ verb po, docVerb d.paths (rewritePath r.rule) verb = some po →
        po.summary = some s ∧
        po.description = some (String.intercalate "\n" rest)) ∧
    (∀ (app : App) (ext : FlaskSchema) (r : Rule) (d : Document),
      app.rules = [r] →
      getattrHidden (app.view_functions r.endpoint) = false →
      (app.view_functions r.endpoint).doc = none →
      _build_openapi_schema app ext = Except.ok d →
      ∀ verb po, docVerb d.paths (rewritePath r.rule) verb = some po →
        po.summary = none ∧ po.description = none) ∧
    (∀ (app : App) (ext : FlaskSchema) (r : Rule) (dstr : String),
      app.rules = [r] →
      getattrHidden (app.view_functions r.endpoint) = false →
      (app.view_functions r.endpoint).doc = some dstr →
      splitlines dstr = [] →
      ∃ e, _build_openapi_schema app ext = Except.error e) := by
  refine ⟨?_, ?_, ?_⟩
  · intro app ext r d dstr s rest hr hhid hattr hsplit h verb po hpo
    obtain ⟨pobj1, pobj, hdoc, hsum, hdesc, hpaths⟩ := build_single_shape hr hhid h
    have hpo1 := applyDoc_some_eq hattr hsplit hdoc
    rw [hpaths] at hpo
    have hpe := verbEntry_eq hpo
    rw [hpe, hsum, hdesc, hpo1]
    exact ⟨rfl, rfl⟩
  · intro app ext r d hr hhid hattr h verb po hpo
    obtain ⟨pobj1, pobj, hdoc, hsum, hdesc, hpaths⟩ := build_single_shape hr hhid h
    have hpo1 := applyDoc_none_eq hattr hdoc
    rw [hpaths] at hpo
    have hpe := verbEntry_eq hpo
    rw [hpe, hsum, hdesc, hpo1]
    exact ⟨rfl, rfl⟩
  · intro app ext r dstr hr hhid hattr hsplit
    cases hps : processRules ext app.view_functions app.rules initState with
    | error e =>
        refine ⟨e, ?_⟩
        unfold _build_openapi_schema
        rw [hps]
    | ok st =>
        exfalso
        rw [hr] at hps
        have hpr := processRules_single hps
        obtain ⟨pobj1, qd, hdoc2, _, _⟩ := processRule_ok_shape hhid hpr
        exact applyDoc_empty_fails hattr hsplit pobj1 hdoc2

/-- C7 (counterexample): a handler with an attached (empty) documentation
string for which no Path Item with a `summary` exists at all: the build of the
whole document raises instead. -/

theorem empty_docstring_fails :
    _build_openapi_schema appEmptyDoc extPlain =
      Except.error "ValueError: not enough values to unpack (expected at least 1, got 0)" :=
  rfl

/-- C7 (witness): the amended mapping evaluated on the concrete two-line
docstring `"Line one\nline two"`. -/

theorem docstring_summary_amended_witness :
    poDocd.summary = some "Line one" ∧ poDocd.description = some "line two" :=
  docstring_summary_amended.1 appDocd extPlain ruleDocd docDocd
    "Line one\nline two" "Line one" ["line two"] rfl rfl rfl (by decide) rfl
    "get" poDocd rfl

end FlaskDantic
